import Mathlib

/-!
Shallow embedding of the post/like data-consistency and authorization core of
the Medium blogging API (Node/Express/Sequelize/PostgreSQL).

Modelling conventions:
* Timestamps are `Int` milliseconds since the epoch (`new Date()` at call time
  is passed in explicitly as `now`).
* The relational store is a `DB` record of row lists; `nextLikeId` models the
  auto-increment sequence of `post_likes.id`.
* Sequelize `defaultScope`s are part of the model definitions in the source
  (`Post.model.js`, `PostLike.model.js` inside `models/index.js`) and, per
  Sequelize semantics, are merged (AND) into every finder issued through the
  model class (`findByPk`, `findOne`, `findAndCountAll`, `count`).  Hence:
  - `Post` finders only see rows with `available_at <= NOW()`;
  - `PostLike` finders only see rows with `is_deleted = false`,
  except where the query itself restates the same condition (no change).
  Instance-level operations (`like.save()`, `like.update(...)`) act on the row
  directly and are not filtered.
* Fallible service methods return `Except ApiError`; the error constructor is
  the error kind the controller layer assigns to the thrown message
  (PostController / LikeController / AuthController map messages to
  NOT_FOUND / AUTHORIZATION_ERROR / VALIDATION_ERROR / AUTHENTICATION_ERROR;
  a `SequelizeUniqueConstraintError` is a conflict).
* bcrypt hashing/comparison and JWT signing are external collaborators and are
  taken as function parameters.
-/

namespace Medium

/-- Error kinds as assigned by the controller/error-handling layer to the
messages thrown by the services (`errorHandling.js` plus the per-controller
`catch` blocks). -/
inductive ApiError where
  | notFound (msg : String)
  | authorization (msg : String)
  | validation (msg : String)
  | conflict (msg : String)
  | authentication (msg : String)
  | internal (msg : String)
deriving Repr, DecidableEq

/-- `users` table row (`User.model.js`). -/
structure User where
  id : Nat
  name : String
  email : String
  password_hash : String
deriving Repr, DecidableEq

/-- `posts` table row (`Post.model.js`). -/
structure Post where
  id : Nat
  user_id : Nat
  title : String
  summary : String
  content : String
  available_at : Int
deriving Repr, DecidableEq

/-- `post_likes` table row (`PostLike.model.js`). -/
structure PostLike where
  id : Nat
  user_id : Nat
  post_id : Nat
  liked_at : Int
  is_deleted : Bool
deriving Repr, DecidableEq

/-- The relational store.  `nextLikeId` is the auto-increment sequence for
`post_likes.id`. -/
structure DB where
  users : List User
  posts : List Post
  post_likes : List PostLike
  nextLikeId : Nat
deriving Repr, DecidableEq

/-- `Post.findByPk(id)`.  The `Post` model's `defaultScope`
(`Post.model.js`) adds `available_at <= NOW()` to every finder, so a
scheduled post is invisible here. -/
def Post.findByPk (db : DB) (now : Int) (id : Nat) : Option Post :=
  db.posts.find? fun p => p.id == id && decide (p.available_at ≤ now)

/-- `User.findByPk(id)` (no default scope on `User`). -/
def User.findByPk (db : DB) (id : Nat) : Option User :=
  db.users.find? fun u => u.id == id

/-- `PostLike.findOne({where: {post_id, user_id}})`.  The `PostLike` model's
`defaultScope` adds `is_deleted = false`, so an inactive like row is
invisible here. -/
def PostLike.findOne (db : DB) (postId userId : Nat) : Option PostLike :=
  db.post_likes.find? fun l =>
    l.post_id == postId && l.user_id == userId && !l.is_deleted

/-- `like.toggle()` (`PostLike.model.js`): flip `is_deleted`; when the flip
re-activates the like, refresh `liked_at` to now. -/
def PostLike.toggle (l : PostLike) (now : Int) : PostLike :=
  let l1 := { l with is_deleted := !l.is_deleted }
  if !l1.is_deleted then { l1 with liked_at := now } else l1

/-- `like.save()`: write the mutated instance back to its row (by primary
key); instance saves bypass scopes. -/
def DB.saveLike (db : DB) (l' : PostLike) : DB :=
  { db with post_likes := db.post_likes.map fun r => if r.id == l'.id then l' else r }

/-- `PostLike.create({post_id, user_id, liked_at: new Date(), is_deleted:
false})`.  The unique index `post_likes_user_post_unique` on
`(user_id, post_id)` rejects the insert whenever any row (active or not)
already holds the pair. -/
def PostLike.create (db : DB) (now : Int) (postId userId : Nat) :
    Except ApiError (PostLike × DB) :=
  if db.post_likes.any (fun l => l.user_id == userId && l.post_id == postId) then
    .error (.conflict "post_likes_user_post_unique")
  else
    let row : PostLike :=
      { id := db.nextLikeId, user_id := userId, post_id := postId
        liked_at := now, is_deleted := false }
    .ok (row, { db with post_likes := db.post_likes ++ [row]
                        nextLikeId := db.nextLikeId + 1 })

/-- `PostLike.count({where: {post_id, is_deleted: false}})` (the default
scope restates `is_deleted = false`; no change). -/
def PostLike.countActive (db : DB) (postId : Nat) : Nat :=
  (db.post_likes.filter fun l => l.post_id == postId && !l.is_deleted).length

/-- Result shape of `LikeService.toggleLike`. -/
structure ToggleResult where
  liked : Bool
  total_likes : Nat
deriving Repr, DecidableEq

/-- `LikeService.toggleLike(postId, userId)` (`LikeService.js`): check the
post, check the user, find the (scoped) like row; toggle it if found, else
create it; then count active likes afresh. -/
def LikeService.toggleLike (db : DB) (now : Int) (postId userId : Nat) :
    Except ApiError (ToggleResult × DB) :=
  match Post.findByPk db now postId with
  | none => .error (.notFound "Post não encontrado")
  | some _ =>
    match User.findByPk db userId with
    | none => .error (.notFound "Usuário não encontrado")
    | some _ =>
      match PostLike.findOne db postId userId with
      | some like =>
        let like' := like.toggle now
        let db' := db.saveLike like'
        let liked := !like'.is_deleted
        .ok ({ liked := liked, total_likes := PostLike.countActive db' postId }, db')
      | none =>
        match PostLike.create db now postId userId with
        | .error e => .error e
        | .ok (_, db') =>
          .ok ({ liked := true, total_likes := PostLike.countActive db' postId }, db')

/-! ## PostService (`PostService.js`) and route-level schema validation -/

/-- Owner identity attached by the `include: [{ model: User, attributes:
['id', 'name'] }]` eager load. -/
structure UserRef where
  id : Nat
  name : String
deriving Repr, DecidableEq

/-- A post as assembled by the read paths: the row itself, the owner's
minimal identity when the query eager-loaded `User` (absent otherwise), and
`total_likes` from the eager-loaded active `PostLikes`. -/
structure PostView where
  post : Post
  user : Option UserRef
  total_likes : Nat
deriving Repr, DecidableEq

/-- Paginated result of the listing queries. -/
structure ListResult where
  posts : List PostView
  total : Nat
  limit : Nat
  offset : Nat
deriving Repr, DecidableEq

/-- Query filters accepted by `PostService.listPosts`. -/
structure ListFilters where
  include_scheduled : Bool := false
  user_id : Option Nat := none
  search : Option String := none

/-- Pagination options (`limit`, `offset`). -/
structure PageOpts where
  limit : Nat := 5
  offset : Nat := 0

/-- JavaScript `toLowerCase()` (character-wise lowering). -/
def jsToLower (s : String) : String :=
  ⟨s.data.map Char.toLower⟩

/-- Case-insensitive substring test, modelling SQL `ILIKE '%s%'`. -/
def containsCI (hay needle : String) : Bool :=
  needle.isEmpty || (((jsToLower hay).splitOn (jsToLower needle)).length > 1)

/-- The SQL `WHERE` clause of `PostService.listPosts`: the model's default
scope (`available_at <= NOW()`) is merged into the query unconditionally;
the service adds its own availability filter only when `include_scheduled`
is unset, plus the optional `user_id` and `ILIKE` search filters. -/
def listPostsWhere (f : ListFilters) (now : Int) (p : Post) : Bool :=
  decide (p.available_at ≤ now)
  && (f.include_scheduled || decide (p.available_at ≤ now))
  && (match f.user_id with | some u => p.user_id == u | none => true)
  && (match f.search with
      | some s => containsCI p.title s || containsCI p.summary s || containsCI p.content s
      | none => true)

/-- Insert `a` into a list sorted by `le`, after any earlier element equal
under `le` (stable position). -/
def orderedInsertBy {α : Type} (le : α → α → Bool) (a : α) : List α → List α
  | [] => [a]
  | b :: l => if le a b then a :: b :: l else b :: orderedInsertBy le a l

/-- Stable insertion sort; models the engine evaluating `ORDER BY`, with
ties left in table (insertion) order. -/
def insertionSortBy {α : Type} (le : α → α → Bool) : List α → List α
  | [] => []
  | a :: l => orderedInsertBy le a (insertionSortBy le l)

/-- `ORDER BY available_at DESC` comparator. -/
def byAvailableDesc (a b : Post) : Bool :=
  decide (b.available_at ≤ a.available_at)

/-- Assemble one result row of `listPosts`: spread of `post.toJSON()` with
the eager-loaded `User` as `{id, name}` and `total_likes` as the number of
eager-loaded active likes. -/
def toListedPost (db : DB) (p : Post) : PostView :=
  { post := p
    user := (User.findByPk db p.user_id).map fun u => { id := u.id, name := u.name }
    total_likes := PostLike.countActive db p.id }

/-- `PostService.listPosts(filters, pagination)`: filtered, ordered,
paginated `findAndCountAll` with `distinct: true` (so `count` counts post
rows, not post×like join rows). -/
def PostService.listPosts (db : DB) (now : Int) (f : ListFilters) (pg : PageOpts) :
    ListResult :=
  let matching := db.posts.filter (listPostsWhere f now)
  let rows := ((insertionSortBy byAvailableDesc matching).drop pg.offset).take pg.limit
  { posts := rows.map (toListedPost db)
    total := matching.length
    limit := pg.limit
    offset := pg.offset }

/-- `PostService.getPostById(id)`: scoped `findByPk` with `User` and active
`PostLikes` eager-loaded. -/
def PostService.getPostById (db : DB) (now : Int) (id : Nat) :
    Except ApiError PostView :=
  match Post.findByPk db now id with
  | none => .error (.notFound "Post não encontrado")
  | some p => .ok (toListedPost db p)

/-- `PostService.getUserPosts(userId, filters, pagination)`: like
`listPosts` restricted to one owner, but the query eager-loads only
`PostLikes` — no `User` include, so no owner identity is attached. -/
def PostService.getUserPosts (db : DB) (now : Int) (userId : Nat)
    (include_scheduled : Bool) (search : Option String) (pg : PageOpts) :
    ListResult :=
  let f : ListFilters :=
    { include_scheduled := include_scheduled, user_id := some userId, search := search }
  let matching := db.posts.filter (listPostsWhere f now)
  let rows := ((insertionSortBy byAvailableDesc matching).drop pg.offset).take pg.limit
  { posts := rows.map fun p =>
      { post := p, user := none, total_likes := PostLike.countActive db p.id }
    total := matching.length
    limit := pg.limit
    offset := pg.offset }

/-- Partial update payload of `PUT /posts/:id`. -/
structure PostUpdate where
  title : Option String := none
  summary : Option String := none
  content : Option String := none
  available_at : Option Int := none

/-- Apply an update payload to a row (`Post.update` column assignment). -/
def PostUpdate.apply (u : PostUpdate) (p : Post) : Post :=
  { p with
    title := u.title.getD p.title
    summary := u.summary.getD p.summary
    content := u.content.getD p.content
    available_at := u.available_at.getD p.available_at }

/-- `Post.update(updateData, {where: {id}})` issued through the scoped
model: the default scope's `available_at <= NOW()` is part of the `WHERE`. -/
def Post.updateWhereId (db : DB) (now : Int) (id : Nat) (u : PostUpdate) : DB :=
  { db with posts := db.posts.map fun p =>
      if p.id == id && decide (p.available_at ≤ now) then u.apply p else p }

/-- `PostService.updatePost(id, updateData, userId)`: scoped lookup, then
ownership check, then update, then scoped re-fetch with `User` included
(the re-fetch misses the row if the update moved `available_at` to the
future). -/
def PostService.updatePost (db : DB) (now : Int) (id : Nat) (u : PostUpdate)
    (userId : Nat) : Except ApiError (Option (Post × Option UserRef) × DB) :=
  match Post.findByPk db now id with
  | none => .error (.notFound "Post não encontrado")
  | some post =>
    if post.user_id != userId then
      .error (.authorization "Acesso negado. Você não tem permissão para editar este post")
    else
      let db' := Post.updateWhereId db now id u
      .ok ((Post.findByPk db' now id).map fun p =>
            (p, (User.findByPk db' p.user_id).map fun w => { id := w.id, name := w.name }),
          db')

/-- `PostService.deletePost(id, userId)`: scoped lookup, ownership check,
then `Post.destroy({where: {id}})` (scoped); the migration's
`onDelete: CASCADE` removes the post's like rows with it. -/
def PostService.deletePost (db : DB) (now : Int) (id : Nat) (userId : Nat) :
    Except ApiError DB :=
  match Post.findByPk db now id with
  | none => .error (.notFound "Post não encontrado")
  | some post =>
    if post.user_id != userId then
      .error (.authorization "Acesso negado. Você não tem permissão para remover este post")
    else
      .ok { db with
            posts := db.posts.filter fun p => !(p.id == id && decide (p.available_at ≤ now))
            post_likes := db.post_likes.filter fun l => !(l.post_id == id) }

/-- One year in milliseconds (the yup bound `now + 1 year`, modelled as 365
days). -/
def msPerYear : Int := 365 * 86400000

/-- `schedulePostSchema` (`post.schema.js`), validated by the route
middleware before the controller runs.  yup's `.min(new Date())` captures
the date when the schema module loads (`startTime`); the `not-too-far` test
recomputes `now + 1 year` at validation time. -/
def schedulePostSchemaCheck (startTime now t : Int) : Except ApiError Unit :=
  if t < startTime then
    .error (.validation "Data de disponibilidade não pode ser no passado")
  else if t > now + msPerYear then
    .error (.validation "Data de disponibilidade não pode ser mais de 1 ano no futuro")
  else
    .ok ()

/-- `PostService.schedulePost(id, available_at, userId)`: scoped lookup,
ownership check, strict-future check, then update `available_at` and
re-fetch through the scoped model (the re-fetch returns nothing, the row
now being scheduled). -/
def PostService.schedulePost (db : DB) (now : Int) (id : Nat)
    (available_at : Int) (userId : Nat) : Except ApiError (Option Post × DB) :=
  match Post.findByPk db now id with
  | none => .error (.notFound "Post não encontrado")
  | some post =>
    if post.user_id != userId then
      .error (.authorization "Acesso negado. Você não tem permissão para agendar este post")
    else if available_at ≤ now then
      .error (.validation "Data de disponibilidade deve ser no futuro")
    else
      let db' := Post.updateWhereId db now id { available_at := some available_at }
      .ok (Post.findByPk db' now id, db')

/-- `PUT /posts/:id/schedule` as wired in the router: `schedulePostSchema`
validation first, then the service call. -/
def schedulePostRoute (db : DB) (startTime now : Int) (id : Nat) (t : Int)
    (userId : Nat) : Except ApiError (Option Post × DB) :=
  match schedulePostSchemaCheck startTime now t with
  | .error e => .error e
  | .ok _ => PostService.schedulePost db now id t userId

/-- `LikeService.removeLike(likeId, userId)`: one combined `findOne` on
`{id: likeId, user_id: userId}` (plus the default scope's
`is_deleted = false`), so a missing like, an inactive like and a like owned
by someone else are indistinguishable; the controller maps the combined
message to NOT_FOUND (404). -/
def LikeService.removeLike (db : DB) (likeId userId : Nat) :
    Except ApiError DB :=
  match db.post_likes.find? (fun l => l.id == likeId && l.user_id == userId && !l.is_deleted) with
  | none => .error (.notFound "Like não encontrado ou você não tem permissão para removê-lo")
  | some like =>
    .ok { db with post_likes := db.post_likes.map fun r =>
          if r.id == like.id then { r with is_deleted := true } else r }

/-! ## UserService (`UserService.js`) and AuthUtils -/

/-- `UserRepository.findByEmail(email)` (no scope on `User`). -/
def UserRepository.findByEmail (db : DB) (email : String) : Option User :=
  db.users.find? fun u => u.email == email

/-- `UserService.authenticateUser(email, password)`: the missing-email case
and the wrong-password case throw the identical message, which the
controller maps to AUTHENTICATION_ERROR (401).  `compare` is bcrypt's
`compare(plain, hash)`; JWT issuance on success is elided (pure, no state). -/
def UserService.authenticateUser (db : DB) (compare : String → String → Bool)
    (email password : String) : Except ApiError User :=
  match UserRepository.findByEmail db email with
  | none => .error (.authentication "Credenciais inválidas")
  | some user =>
    if compare password user.password_hash then .ok user
    else .error (.authentication "Credenciais inválidas")

/-- The common-password blacklist of `AuthUtils.validatePasswordStrength`. -/
def commonPasswords : List String :=
  ["123456", "password", "123456789", "12345678", "12345"]

/-- The `isValid` verdict of `AuthUtils.validatePasswordStrength`: only the
minimum-length rule and the common-password rule clear the flag (the other
checks merely adjust `score`/`feedback`). -/
def AuthUtils.passwordStrengthIsValid (password : String) : Bool :=
  decide (password.length ≥ 6) && !(commonPasswords.contains (jsToLower password))

/-- `UserRepository.update(id, {password})`: the model's `beforeSave` hook
bcrypt-hashes `password` into `password_hash`; `hashFn` stands for that
hashing. -/
def UserRepository.updatePassword (db : DB) (hashFn : String → String)
    (id : Nat) (newPassword : String) : DB :=
  { db with users := db.users.map fun u =>
      if u.id == id then { u with password_hash := hashFn newPassword } else u }

/-- `UserService.changePassword(id, currentPassword, newPassword)`.  The
state is returned alongside the outcome so that the frame of failure paths
is visible.  The source first does `(await findById(id)).email`, which
crashes with a TypeError when the user is missing (modelled as an internal
error); all validation failures precede the update. -/
def UserService.changePassword (db : DB) (compare : String → String → Bool)
    (hashFn : String → String) (id : Nat) (currentPassword newPassword : String) :
    Except ApiError Unit × DB :=
  match User.findByPk db id with
  | none => (.error (.internal "TypeError"), db)
  | some u0 =>
    match UserRepository.findByEmail db u0.email with
    | none => (.error (.notFound "Usuário não encontrado"), db)
    | some user =>
      if !(compare currentPassword user.password_hash) then
        (.error (.validation "Senha atual incorreta"), db)
      else if !(AuthUtils.passwordStrengthIsValid newPassword) then
        (.error (.validation "Nova senha inválida"), db)
      else if currentPassword == newPassword then
        (.error (.validation "A nova senha deve ser diferente da senha atual"), db)
      else
        (.ok (), UserRepository.updatePassword db hashFn id newPassword)

/-! ## Invariant apparatus for the like state machine -/

/-- The unique-index key of `post_likes_user_post_unique`. -/
def likeKey (r : PostLike) : Nat × Nat := (r.user_id, r.post_id)

/-- Identity of a like row: primary key plus the (user, post) pair; toggling
changes neither. -/
def rowKey (r : PostLike) : Nat × Nat × Nat := (r.id, r.user_id, r.post_id)

/-- Store well-formedness: distinct unique-index keys, distinct primary
keys, and the auto-increment sequence ahead of every existing id. -/
def DB.likesWF (db : DB) : Prop :=
  (db.post_likes.map likeKey).Nodup ∧
  (db.post_likes.map PostLike.id).Nodup ∧
  ∀ r ∈ db.post_likes, r.id < db.nextLikeId

/-- The row `r` is still present (same id, user and post; flags may have
changed). -/
def rowPreserved (r : PostLike) (ls : List PostLike) : Prop :=
  ∃ s ∈ ls, rowKey s = rowKey r

/-- One `toggleLike` call as a state transition: on an error the transaction
leaves the store unchanged. -/
def toggleStep (db : DB) (c : Int × Nat × Nat) : DB :=
  match LikeService.toggleLike db c.1 c.2.1 c.2.2 with
  | .ok (_, db') => db'
  | .error _ => db

/-- A sequence of `toggleLike` calls (time, postId, userId). -/
def runToggles (db : DB) (calls : List (Int × Nat × Nat)) : DB :=
  calls.foldl toggleStep db

/-- The intended order of default listings: `available_at` descending, ties
broken by `id` ascending. -/
def postLex (a b : Post) : Prop :=
  b.available_at < a.available_at ∨ (a.available_at = b.available_at ∧ a.id < b.id)

/-! ## Concrete fixtures used by the closed theorems -/

/-- Fixture user 1. -/
def uA : User := { id := 1, name := "Ana", email := "ana@example.com", password_hash := "hashA" }

/-- Fixture user 2. -/
def uB : User := { id := 2, name := "Beto", email := "beto@example.com", password_hash := "hashB" }

/-- Fixture post 1, available (`available_at = 0`, i.e. in the past of every
`now ≥ 0` used below), owned by user 1. -/
def pAvail : Post :=
  { id := 1, user_id := 1, title := "t1", summary := "s1", content := "c1", available_at := 0 }

/-- Fixture post 2, scheduled (`available_at = 100 > now = 10` below), owned
by user 1. -/
def pSched : Post :=
  { id := 2, user_id := 1, title := "t2", summary := "s2", content := "c2", available_at := 100 }

/-- Fixture store: two users, one available and one scheduled post, no
likes. -/
def dbFix : DB := { users := [uA, uB], posts := [pAvail, pSched], post_likes := [], nextLikeId := 1 }

/-- Fixture active like: like row 1 on post 1, owned by user 1. -/
def likeA : PostLike := { id := 1, user_id := 1, post_id := 1, liked_at := 5, is_deleted := false }

/-- Fixture store with the active like `likeA` present. -/
def dbLike : DB := { users := [uA, uB], posts := [pAvail, pSched], post_likes := [likeA], nextLikeId := 2 }

/-! ## Theorems -/

/-- C1: the contract "toggleLike fails with NotFound only when the post or
the user does not exist, and otherwise succeeds" is violated: post 2 exists
(it is merely scheduled, `available_at = 100 > now = 10`) and user 2
exists, yet `toggleLike(2, 2)` fails with NotFound, because the `Post`
default scope hides scheduled posts from `findByPk`. -/
theorem toggleLike_notFound_for_existing_scheduled_post :
    pSched ∈ dbFix.posts ∧ uB ∈ dbFix.users ∧
    LikeService.toggleLike dbFix 10 2 2 = .error (.notFound "Post não encontrado") :=
  ⟨by decide, by decide, rfl⟩

/-- C2: the NONE→ACTIVE→INACTIVE→ACTIVE alternation is violated on the
third call: the first call likes (liked=true), the second unlikes
(liked=false), but the third fails with a unique-constraint conflict
instead of re-activating, because the `PostLike` default scope hides the
inactive row from `findOne` and the service then attempts a duplicate
`create`. -/
theorem toggleLike_third_call_hits_unique_constraint :
    ∃ r1 d1 r2 d2,
      LikeService.toggleLike dbFix 10 1 2 = .ok (r1, d1) ∧ r1.liked = true ∧
      LikeService.toggleLike d1 11 1 2 = .ok (r2, d2) ∧ r2.liked = false ∧
      LikeService.toggleLike d2 12 1 2 = .error (.conflict "post_likes_user_post_unique") :=
  ⟨_, _, _, _, rfl, rfl, rfl, rfl, rfl⟩

/-- C5 (counterexample part): requesting `include_scheduled=true` does not
include the scheduled post: the `Post` default scope's availability filter
is merged into the listing query unconditionally, so post 2 (scheduled) is
excluded from both the items and the total even though the claim says it
must be included. -/
theorem listPosts_include_scheduled_still_filters :
    pSched ∈ dbFix.posts ∧ (10 : Int) < pSched.available_at ∧
    (PostService.listPosts dbFix 10 { include_scheduled := true } {}).total = 1 ∧
    ((PostService.listPosts dbFix 10 { include_scheduled := true } {}).posts.map
      fun v => v.post.id) = [1] :=
  ⟨by decide, by decide, rfl, rfl⟩

/-- C4 (counterexample): like row 1 exists, is active, and is owned by user
1, yet caller 2 gets the NOT_FOUND-mapped combined error rather than an
`AuthorizationError` distinct from `NotFoundError`: `removeLike` checks
existence and ownership in one combined lookup. -/
theorem removeLike_nonowner_gets_notFound :
    likeA ∈ dbLike.post_likes ∧ likeA.is_deleted = false ∧ likeA.user_id ≠ 2 ∧
    LikeService.removeLike dbLike 1 2 =
      .error (.notFound "Like não encontrado ou você não tem permissão para removê-lo") :=
  ⟨by decide, rfl, by decide, rfl⟩

/-- C6 (counterexample): post 2 exists and is owned by caller 1, and the
target time 50 is strictly between `now = 10` and `now + 1 year`, yet
`schedulePost` fails with NotFound instead of succeeding: the scoped
`findByPk` cannot see a post whose current `available_at` is in the
future, so a scheduled post can never be rescheduled. -/
theorem schedulePost_cannot_reschedule_scheduled_post :
    pSched ∈ dbFix.posts ∧ pSched.user_id = 1 ∧
    (10 : Int) < 50 ∧ (50 : Int) ≤ 10 + msPerYear ∧
    schedulePostRoute dbFix 0 10 2 50 1 = .error (.notFound "Post não encontrado") :=
  ⟨by decide, rfl, by decide, by decide, rfl⟩

/-- C7 (counterexample): `getUserPosts` is a listing post operation, the
owner (user 1) exists, yet the returned item carries no owner identity —
that query eager-loads only `PostLikes`, never `User`. -/
theorem getUserPosts_omits_owner_identity :
    uA ∈ dbFix.users ∧ pAvail.user_id = uA.id ∧
    ((PostService.getUserPosts dbFix 10 1 false none {}).posts.map fun v => v.user) =
      [none] :=
  ⟨by decide, rfl, rfl⟩

/-- C8: `PostLike.toggle` always flips `is_deleted`; it leaves `liked_at`
unchanged on deactivation and refreshes it to now on re-activation; the
row identity (id, user, post) is never touched. -/
theorem toggle_flips_flag_and_refreshes_liked_at_on_reactivation
    (l : PostLike) (now : Int) :
    (l.toggle now).is_deleted = !l.is_deleted ∧
    (l.is_deleted = false → (l.toggle now).liked_at = l.liked_at) ∧
    (l.is_deleted = true → (l.toggle now).liked_at = now) ∧
    (l.toggle now).id = l.id ∧ (l.toggle now).user_id = l.user_id ∧
    (l.toggle now).post_id = l.post_id := by
  cases h : l.is_deleted <;> simp [PostLike.toggle, h]

/-- C8 witness: concrete deactivation then re-activation of the fixture
like row. -/
theorem toggle_flips_flag_witness :
    (likeA.is_deleted = false ∧ (likeA.toggle 9).liked_at = likeA.liked_at) ∧
    ((likeA.toggle 9).is_deleted = true ∧ ((likeA.toggle 9).toggle 11).liked_at = 11) :=
  ⟨⟨rfl, (toggle_flips_flag_and_refreshes_liked_at_on_reactivation likeA 9).2.1 rfl⟩,
   ⟨rfl, (toggle_flips_flag_and_refreshes_liked_at_on_reactivation (likeA.toggle 9) 11).2.2.1 rfl⟩⟩

/-- C9: every failure of `authenticateUser` — whether the email is
unregistered or the password does not match — is the very same
`AUTHENTICATION_ERROR` with message "Credenciais inválidas", so the failure
does not reveal whether the email is registered. -/
theorem authenticateUser_failure_is_uniform (db : DB)
    (compare : String → String → Bool) (email password : String) :
    (∃ u, UserService.authenticateUser db compare email password = .ok u) ∨
    UserService.authenticateUser db compare email password =
      .error (.authentication "Credenciais inválidas") := by
  unfold UserService.authenticateUser
  cases UserRepository.findByEmail db email with
  | none => exact .inr rfl
  | some u =>
    cases hc : compare password u.password_hash with
    | false => exact .inr (by simp [hc])
    | true => exact .inl ⟨u, by simp [hc]⟩

/-- C10: `changePassword` rejects a new password equal to the current one
even when the current password is correct and the new one passes strength
validation; and on every failure path the user store (hence the stored
hash) is unchanged. -/
theorem changePassword_same_password_fails_and_failures_keep_hash
    (db : DB) (compare : String → String → Bool) (hashFn : String → String)
    (idn : Nat) (cur new : String) :
    (∀ e, (UserService.changePassword db compare hashFn idn cur new).1 = .error e →
      (UserService.changePassword db compare hashFn idn cur new).2 = db) ∧
    (∀ u, User.findByPk db idn = some u →
      ∀ w, UserRepository.findByEmail db u.email = some w →
      compare cur w.password_hash = true →
      AuthUtils.passwordStrengthIsValid new = true →
      new = cur →
      (UserService.changePassword db compare hashFn idn cur new).1 =
        .error (.validation "A nova senha deve ser diferente da senha atual")) := by
  constructor
  · intro e
    unfold UserService.changePassword
    repeat' split
    all_goals intro h
    all_goals first
      | rfl
      | simp at h
  · intro u hu w hw hc hs he
    subst he
    unfold UserService.changePassword
    rw [hu]
    dsimp only
    rw [hw]
    dsimp only
    simp [hc, hs]

/-- C10 witness: user 1 with current password "segura99" (correct under the
concrete comparator) and an identical, strength-valid new password; the
call fails with the dedicated validation error and the store is unchanged. -/
theorem changePassword_same_password_witness :
    (UserService.changePassword dbFix (fun p h => p == "segura99" && h == "hashA")
        (fun s => s ++ "$") 1 "segura99" "segura99").1 =
      .error (.validation "A nova senha deve ser diferente da senha atual") ∧
    (UserService.changePassword dbFix (fun p h => p == "segura99" && h == "hashA")
        (fun s => s ++ "$") 1 "segura99" "segura99").2 = dbFix :=
  ⟨(changePassword_same_password_fails_and_failures_keep_hash dbFix
      (fun p h => p == "segura99" && h == "hashA") (fun s => s ++ "$")
      1 "segura99" "segura99").2 uA rfl uA rfl (by decide) (by decide) rfl,
   (changePassword_same_password_fails_and_failures_keep_hash dbFix
      (fun p h => p == "segura99" && h == "hashA") (fun s => s ++ "$")
      1 "segura99" "segura99").1 _ (by
        exact (changePassword_same_password_fails_and_failures_keep_hash dbFix
          (fun p h => p == "segura99" && h == "hashA") (fun s => s ++ "$")
          1 "segura99" "segura99").2 uA rfl uA rfl (by decide) (by decide) rfl)⟩

/-! ### Helper lemmas for the like-store invariant (claim about repeated
toggling) -/

theorem toggle_rowKey (l : PostLike) (now : Int) :
    rowKey (l.toggle now) = rowKey l := by
  cases h : l.is_deleted <;> simp [PostLike.toggle, rowKey, h]

theorem mem_of_like_id_eq {ls : List PostLike}
    (hids : (ls.map PostLike.id).Nodup) {a b : PostLike}
    (ha : a ∈ ls) (hb : b ∈ ls) (h : a.id = b.id) : a = b :=
  List.inj_on_of_nodup_map hids ha hb h

theorem saveLike_map_rowKey (db : DB) (like like' : PostLike)
    (hmem : like ∈ db.post_likes)
    (hids : (db.post_likes.map PostLike.id).Nodup)
    (hkey : rowKey like' = rowKey like) :
    (db.saveLike like').post_likes.map rowKey = db.post_likes.map rowKey := by
  show (db.post_likes.map fun r => if r.id == like'.id then like' else r).map rowKey
      = db.post_likes.map rowKey
  rw [List.map_map]
  apply List.map_congr_left
  intro a ha
  have hid' : like'.id = like.id := congrArg (fun t => t.1) hkey
  by_cases h : a.id = like'.id
  · have haeq : a = like := mem_of_like_id_eq hids ha hmem (h.trans hid')
    simp [Function.comp, h, haeq, hid', hkey]
  · simp [Function.comp, beq_iff_eq, h]

theorem saveLike_wf (db : DB) (like like' : PostLike)
    (hmem : like ∈ db.post_likes) (hwf : db.likesWF)
    (hkey : rowKey like' = rowKey like) :
    (db.saveLike like').likesWF ∧
    ∀ r ∈ db.post_likes, rowPreserved r (db.saveLike like').post_likes := by
  obtain ⟨hk, hi, hn⟩ := hwf
  have hmap := saveLike_map_rowKey db like like' hmem hi hkey
  have hproj : ∀ {β : Type} (f : Nat × Nat × Nat → β) (ls : List PostLike),
      ls.map (fun r => f (rowKey r)) = (ls.map rowKey).map f := by
    intro β f ls; rw [List.map_map]; rfl
  have hkeys : (db.saveLike like').post_likes.map likeKey
      = db.post_likes.map likeKey := by
    have hlk : ∀ (ls : List PostLike), ls.map likeKey = (ls.map rowKey).map (fun t => t.2) := by
      intro ls; exact hproj (fun t => t.2) ls
    rw [hlk, hlk, hmap]
  have hids2 : (db.saveLike like').post_likes.map PostLike.id
      = db.post_likes.map PostLike.id := by
    have hlk : ∀ (ls : List PostLike),
        ls.map PostLike.id = (ls.map rowKey).map (fun t => t.1) := by
      intro ls; exact hproj (fun t => t.1) ls
    rw [hlk, hlk, hmap]
  refine ⟨⟨by rw [hkeys]; exact hk, by rw [hids2]; exact hi, ?_⟩, ?_⟩
  · intro r hr
    have hrid : r.id ∈ (db.saveLike like').post_likes.map PostLike.id :=
      List.mem_map_of_mem _ hr
    rw [hids2] at hrid
    obtain ⟨s, hs, hsid⟩ := List.mem_map.mp hrid
    have : s.id < db.nextLikeId := hn s hs
    rw [hsid] at this
    exact this
  · intro r hr
    have : rowKey r ∈ (db.saveLike like').post_likes.map rowKey := by
      rw [hmap]; exact List.mem_map_of_mem _ hr
    obtain ⟨s, hs, hsk⟩ := List.mem_map.mp this
    exact ⟨s, hs, hsk⟩

theorem postLikeCreate_wf (db : DB) (now : Int) (postId userId : Nat)
    (row : PostLike) (db' : DB)
    (h : PostLike.create db now postId userId = .ok (row, db'))
    (hwf : db.likesWF) :
    db'.likesWF ∧ ∀ r ∈ db.post_likes, rowPreserved r db'.post_likes := by
  obtain ⟨hk, hi, hn⟩ := hwf
  unfold PostLike.create at h
  split at h
  · exact absurd h (by simp)
  · rename_i hguard
    simp only [Except.ok.injEq, Prod.mk.injEq] at h
    obtain ⟨hrow, hdb⟩ := h
    subst hdb
    have hnotpair : ∀ l ∈ db.post_likes, ¬(l.user_id = userId ∧ l.post_id = postId) := by
      intro l hl hcontra
      have : db.post_likes.any (fun l => l.user_id == userId && l.post_id == postId) = true := by
        rw [List.any_eq_true]
        exact ⟨l, hl, by simp [hcontra.1, hcontra.2]⟩
      exact hguard this
    constructor
    · refine ⟨?_, ?_, ?_⟩
      · rw [List.map_append, List.nodup_append]
        refine ⟨hk, List.nodup_singleton _, ?_⟩
        intro x hx hx1
        simp only [List.map_cons, List.map_nil, List.mem_singleton] at hx1
        obtain ⟨l, hl, hlk⟩ := List.mem_map.mp hx
        subst hx1
        have : l.user_id = userId ∧ l.post_id = postId := by
          have h1 := congrArg Prod.fst hlk
          have h2 := congrArg Prod.snd hlk
          exact ⟨h1, h2⟩
        exact hnotpair l hl this
      · rw [List.map_append, List.nodup_append]
        refine ⟨hi, List.nodup_singleton _, ?_⟩
        intro x hx hx1
        simp only [List.map_cons, List.map_nil, List.mem_singleton] at hx1
        obtain ⟨l, hl, hlk⟩ := List.mem_map.mp hx
        subst hx1
        have := hn l hl
        rw [hlk] at this
        exact absurd this (Nat.lt_irrefl _)
      · intro r hr
        rcases List.mem_append.mp hr with hr | hr
        · exact Nat.lt_succ_of_lt (hn r hr)
        · simp only [List.mem_singleton] at hr
          subst hr
          exact Nat.lt_succ_self _
    · intro r hr
      exact ⟨r, List.mem_append_left _ hr, rfl⟩

theorem toggleStep_wf (db : DB) (c : Int × Nat × Nat) (hwf : db.likesWF) :
    (toggleStep db c).likesWF ∧
    ∀ r ∈ db.post_likes, rowPreserved r (toggleStep db c).post_likes := by
  unfold toggleStep LikeService.toggleLike
  cases hp : Post.findByPk db c.1 c.2.1 with
  | none => exact ⟨hwf, fun r hr => ⟨r, hr, rfl⟩⟩
  | some post =>
    cases hu : User.findByPk db c.2.2 with
    | none => exact ⟨hwf, fun r hr => ⟨r, hr, rfl⟩⟩
    | some user =>
      cases hl : PostLike.findOne db c.2.1 c.2.2 with
      | some like =>
        have hmem : like ∈ db.post_likes := List.mem_of_find?_eq_some hl
        exact saveLike_wf db like (like.toggle c.1) hmem hwf (toggle_rowKey like c.1)
      | none =>
        cases hc2 : PostLike.create db c.1 c.2.1 c.2.2 with
        | error e => exact ⟨hwf, fun r hr => ⟨r, hr, rfl⟩⟩
        | ok rd =>
          obtain ⟨row, db'⟩ := rd
          exact postLikeCreate_wf db c.1 c.2.1 c.2.2 row db' hc2 hwf

/-- C3: starting from a well-formed like store, any sequence of
`toggleLike` calls keeps at most one like row per (user, post) pair — the
mapped unique-index keys stay duplicate-free — and never removes an
existing row: every row of the initial store is still present (same id,
user and post) afterwards, so there is no ACTIVE/INACTIVE → NONE
transition through toggling. -/
theorem toggleLike_pair_unique_and_never_deletes
    (db : DB) (calls : List (Int × Nat × Nat)) (hwf : db.likesWF) :
    ((runToggles db calls).post_likes.map likeKey).Nodup ∧
    ∀ r ∈ db.post_likes, rowPreserved r (runToggles db calls).post_likes := by
  suffices h : (runToggles db calls).likesWF ∧
      ∀ r ∈ db.post_likes, rowPreserved r (runToggles db calls).post_likes from
    ⟨h.1.1, h.2⟩
  induction calls generalizing db with
  | nil => exact ⟨hwf, fun r hr => ⟨r, hr, rfl⟩⟩
  | cons c cs ih =>
    have step := toggleStep_wf db c hwf
    have rest := ih (toggleStep db c) step.1
    refine ⟨rest.1, ?_⟩
    intro r hr
    obtain ⟨s, hs, hsk⟩ := step.2 r hr
    obtain ⟨t, ht, htk⟩ := rest.2 s hs
    exact ⟨t, ht, htk.trans hsk⟩

/-- C3 witness: the store holding the single active like `likeA`, hit by
three further toggle calls (deactivate, conflicting re-like attempt, and a
toggle by the other user). -/
theorem toggleLike_pair_unique_and_never_deletes_witness :
    ((runToggles dbLike [(10, 1, 1), (11, 1, 1), (12, 1, 2)]).post_likes.map likeKey).Nodup ∧
    ∀ r ∈ dbLike.post_likes,
      rowPreserved r (runToggles dbLike [(10, 1, 1), (11, 1, 1), (12, 1, 2)]).post_likes :=
  toggleLike_pair_unique_and_never_deletes dbLike [(10, 1, 1), (11, 1, 1), (12, 1, 2)]
    (by refine ⟨by decide, by decide, ?_⟩; decide)

/-! ### Helper lemma: the scoped `findByPk` on a well-formed post table -/

theorem postFindByPk_eq_some (db : DB) (now : Int) (p : Post)
    (hids : (db.posts.map Post.id).Nodup) (hp : p ∈ db.posts)
    (havail : p.available_at ≤ now) :
    Post.findByPk db now p.id = some p := by
  unfold Post.findByPk
  cases hfind : db.posts.find? (fun q => q.id == p.id && decide (q.available_at ≤ now)) with
  | none =>
    exfalso
    have := List.find?_eq_none.mp hfind p hp
    simp [havail] at this
  | some q =>
    have hqmem : q ∈ db.posts := List.mem_of_find?_eq_some hfind
    have hqpred := List.find?_some hfind
    simp only [Bool.and_eq_true, beq_iff_eq, decide_eq_true_eq] at hqpred
    have : q = p := List.inj_on_of_nodup_map hids hqmem hp hqpred.1
    rw [this]

/-- C6 (amended): for a post that the scoped lookup can see — one already
available (`available_at ≤ now`) — owned by the caller, and with the schema
module loaded no later than the call (`startTime ≤ now`), the schema+service
pipeline fails with a `ValidationError` whenever `t ≤ now` or
`t > now + 1 year`, and otherwise succeeds, updating the stored
`available_at` to `t`.  (A post whose `available_at` is already in the
future is instead reported NotFound — see the counterexample.) -/
theorem schedulePost_bounds (db : DB) (startTime now t : Int)
    (caller : Nat) (p : Post)
    (hids : (db.posts.map Post.id).Nodup) (hp : p ∈ db.posts)
    (havail : p.available_at ≤ now) (hown : p.user_id = caller)
    (hstart : startTime ≤ now) :
    ((t ≤ now ∨ now + msPerYear < t) →
      ∃ m, schedulePostRoute db startTime now p.id t caller = .error (.validation m)) ∧
    (now < t → t ≤ now + msPerYear →
      ∃ o db', schedulePostRoute db startTime now p.id t caller = .ok (o, db') ∧
        ∃ q ∈ db'.posts, q.id = p.id ∧ q.available_at = t) := by
  have hfind := postFindByPk_eq_some db now p hids hp havail
  have hmy : (0 : Int) < msPerYear := by norm_num [msPerYear]
  constructor
  · intro hbad
    unfold schedulePostRoute schedulePostSchemaCheck
    rcases hbad with hle | hgt
    · by_cases hst : t < startTime
      · rw [if_pos hst]
        exact ⟨_, rfl⟩
      · rw [if_neg hst, if_neg (by omega : ¬ t > now + msPerYear)]
        unfold PostService.schedulePost
        rw [hfind]
        dsimp only
        rw [if_neg (by simp [hown] : ¬ (p.user_id != caller) = true), if_pos hle]
        exact ⟨_, rfl⟩
    · rw [if_neg (by omega : ¬ t < startTime), if_pos (by omega : t > now + msPerYear)]
      exact ⟨_, rfl⟩
  · intro h1 h2
    unfold schedulePostRoute schedulePostSchemaCheck
    rw [if_neg (by omega : ¬ t < startTime), if_neg (by omega : ¬ t > now + msPerYear)]
    unfold PostService.schedulePost
    rw [hfind]
    dsimp only
    rw [if_neg (by simp [hown] : ¬ (p.user_id != caller) = true),
        if_neg (by omega : ¬ t ≤ now)]
    refine ⟨_, _, rfl, ({ p with available_at := t }), ?_, rfl, rfl⟩
    show _ ∈ (Post.updateWhereId db now p.id { available_at := some t }).posts
    unfold Post.updateWhereId
    dsimp only
    have : ({ p with available_at := t } : Post)
        = if p.id == p.id && decide (p.available_at ≤ now)
            then PostUpdate.apply { available_at := some t } p else p := by
      rw [if_pos (by simp [havail])]
      rfl
    rw [this]
    exact List.mem_map_of_mem _ hp

/-- C6 witness: on the fixture store, scheduling the available post 1 (owner
1) to `t = 5 ≤ now = 10` is a validation failure, and to `t = 50` (within
one year) succeeds with the stored `available_at` updated to 50. -/
theorem schedulePost_bounds_witness :
    (∃ m, schedulePostRoute dbFix 0 10 1 5 1 = .error (.validation m)) ∧
    (∃ o db', schedulePostRoute dbFix 0 10 1 50 1 = .ok (o, db') ∧
      ∃ q ∈ db'.posts, q.id = 1 ∧ q.available_at = 50) :=
  ⟨(schedulePost_bounds dbFix 0 10 5 1 pAvail (by decide) (by decide) (by decide)
      rfl (by decide)).1 (Or.inl (by decide)),
   (schedulePost_bounds dbFix 0 10 50 1 pAvail (by decide) (by decide) (by decide)
      rfl (by decide)).2 (by decide) (by decide)⟩

/-- C4 (amended): for Post update/delete/schedule the pattern holds as
claimed on the posts the scoped lookup can see: a missing (or scheduled)
post yields NotFound; an available post with a different owner yields an
AuthorizationError, a kind distinct from NotFound; the owner succeeds
(schedulePost additionally needs a strictly-future time).  For Like
removal, however, existence and ownership are decided by one combined
active-scoped lookup: whenever no active like row with the given id AND the
caller as owner exists — including when the row exists but belongs to
someone else — the same NotFound-mapped combined error is raised, and the
owner of an active like succeeds. -/
theorem ownership_policy (db : DB) (now : Int) (idn caller : Nat)
    (u : PostUpdate) (t : Int)
    (hids : (db.posts.map Post.id).Nodup) :
    (Post.findByPk db now idn = none →
      PostService.updatePost db now idn u caller = .error (.notFound "Post não encontrado") ∧
      PostService.deletePost db now idn caller = .error (.notFound "Post não encontrado") ∧
      PostService.schedulePost db now idn t caller = .error (.notFound "Post não encontrado")) ∧
    (∀ p ∈ db.posts, p.id = idn → p.available_at ≤ now → p.user_id ≠ caller →
      (∃ m, PostService.updatePost db now idn u caller = .error (.authorization m)) ∧
      (∃ m, PostService.deletePost db now idn caller = .error (.authorization m)) ∧
      (∃ m, PostService.schedulePost db now idn t caller = .error (.authorization m))) ∧
    (∀ p ∈ db.posts, p.id = idn → p.available_at ≤ now → p.user_id = caller →
      (∃ v, PostService.updatePost db now idn u caller = .ok v) ∧
      (∃ d, PostService.deletePost db now idn caller = .ok d) ∧
      (now < t → ∃ v, PostService.schedulePost db now idn t caller = .ok v)) ∧
    (∀ likeId, (∀ l ∈ db.post_likes, ¬(l.id = likeId ∧ l.user_id = caller ∧ l.is_deleted = false)) →
      LikeService.removeLike db likeId caller =
        .error (.notFound "Like não encontrado ou você não tem permissão para removê-lo")) ∧
    (∀ likeId, ∀ l ∈ db.post_likes, l.id = likeId → l.user_id = caller → l.is_deleted = false →
      ∃ d, LikeService.removeLike db likeId caller = .ok d) := by
  refine ⟨?_, ?_, ?_, ?_, ?_⟩
  · intro hnone
    refine ⟨?_, ?_, ?_⟩ <;>
      (first
        | (unfold PostService.updatePost; rw [hnone])
        | (unfold PostService.deletePost; rw [hnone])
        | (unfold PostService.schedulePost; rw [hnone]))
  · intro p hp hpid havail hneq
    subst hpid
    have hfind := postFindByPk_eq_some db now p hids hp havail
    refine ⟨?_, ?_, ?_⟩
    · unfold PostService.updatePost
      rw [hfind]
      dsimp only
      rw [if_pos (by simp [hneq] : (p.user_id != caller) = true)]
      exact ⟨_, rfl⟩
    · unfold PostService.deletePost
      rw [hfind]
      dsimp only
      rw [if_pos (by simp [hneq] : (p.user_id != caller) = true)]
      exact ⟨_, rfl⟩
    · unfold PostService.schedulePost
      rw [hfind]
      dsimp only
      rw [if_pos (by simp [hneq] : (p.user_id != caller) = true)]
      exact ⟨_, rfl⟩
  · intro p hp hpid havail hown
    subst hpid
    have hfind := postFindByPk_eq_some db now p hids hp havail
    refine ⟨?_, ?_, ?_⟩
    · unfold PostService.updatePost
      rw [hfind]
      dsimp only
      rw [if_neg (by simp [hown] : ¬ (p.user_id != caller) = true)]
      exact ⟨_, rfl⟩
    · unfold PostService.deletePost
      rw [hfind]
      dsimp only
      rw [if_neg (by simp [hown] : ¬ (p.user_id != caller) = true)]
      exact ⟨_, rfl⟩
    · intro ht
      unfold PostService.schedulePost
      rw [hfind]
      dsimp only
      rw [if_neg (by simp [hown] : ¬ (p.user_id != caller) = true),
          if_neg (by omega : ¬ t ≤ now)]
      exact ⟨_, rfl⟩
  · intro likeId hnone
    unfold LikeService.removeLike
    have : db.post_likes.find?
        (fun l => l.id == likeId && l.user_id == caller && !l.is_deleted) = none := by
      rw [List.find?_eq_none]
      intro l hl
      have := hnone l hl
      simp only [Bool.and_eq_true, beq_iff_eq, Bool.not_eq_eq_eq_not, Bool.not_true]
      intro hcon
      exact this ⟨hcon.1.1, hcon.1.2, by simpa using hcon.2⟩
    rw [this]
  · intro likeId l hl hid hown hact
    unfold LikeService.removeLike
    cases hf : db.post_likes.find?
        (fun l => l.id == likeId && l.user_id == caller && !l.is_deleted) with
    | none =>
      exfalso
      have := List.find?_eq_none.mp hf l hl
      simp [hid, hown, hact] at this
    | some s => exact ⟨_, rfl⟩

/-- C4 witness: on the fixture store with the active like `likeA` (owner 1),
caller 2 updating post 1 gets an AuthorizationError, while owner 1 can
remove like 1. -/
theorem ownership_policy_witness :
    (∃ m, PostService.updatePost dbLike 10 1 {} 2 = .error (.authorization m)) ∧
    (∃ d, LikeService.removeLike dbLike 1 1 = .ok d) :=
  ⟨((ownership_policy dbLike 10 1 2 {} 50 (by decide)).2.1 pAvail (by decide) rfl
      (by decide) (by decide)).1,
   (ownership_policy dbLike 10 1 1 {} 50 (by decide)).2.2.2.2 1 likeA (by decide)
      rfl rfl rfl⟩

/-! ### Helper lemmas for the listing order (stable sort on
`available_at DESC` over a table in insertion order) -/

theorem mem_orderedInsertBy {α : Type} (le : α → α → Bool) (a x : α) (l : List α) :
    x ∈ orderedInsertBy le a l ↔ x = a ∨ x ∈ l := by
  induction l with
  | nil => simp [orderedInsertBy]
  | cons b l ih =>
    by_cases h : le a b = true
    · simp [orderedInsertBy, h, List.mem_cons]
    · simp [orderedInsertBy, h, List.mem_cons, ih]
      tauto

theorem mem_insertionSortBy {α : Type} (le : α → α → Bool) (l : List α) (x : α) :
    x ∈ insertionSortBy le l ↔ x ∈ l := by
  induction l with
  | nil => simp [insertionSortBy]
  | cons a l ih => simp [insertionSortBy, mem_orderedInsertBy, ih, List.mem_cons]

theorem pairwise_orderedInsertBy (a : Post) (l : List Post)
    (hl : l.Pairwise postLex)
    (hid : ∀ b ∈ l, a.available_at = b.available_at → a.id < b.id) :
    (orderedInsertBy byAvailableDesc a l).Pairwise postLex := by
  induction l with
  | nil => simp [orderedInsertBy]
  | cons b l ih =>
    rcases List.pairwise_cons.mp hl with ⟨hbl, hl'⟩
    by_cases h : byAvailableDesc a b = true
    · rw [show orderedInsertBy byAvailableDesc a (b :: l)
          = if byAvailableDesc a b then a :: b :: l
            else b :: orderedInsertBy byAvailableDesc a l from rfl,
        if_pos h]
      refine List.Pairwise.cons ?_ hl
      intro x hx
      have hba : b.available_at ≤ a.available_at := by
        simpa [byAvailableDesc] using h
      have hxa : x.available_at ≤ a.available_at := by
        rcases List.mem_cons.mp hx with rfl | hxl
        · exact hba
        · rcases hbl x hxl with hlt | ⟨heq, _⟩
          · exact le_trans (le_of_lt hlt) hba
          · exact le_trans (le_of_eq heq.symm) hba
      by_cases hlt : x.available_at < a.available_at
      · exact Or.inl hlt
      · have heqa : a.available_at = x.available_at := le_antisymm (not_lt.mp hlt) hxa
        exact Or.inr ⟨heqa, hid x hx heqa⟩
    · rw [show orderedInsertBy byAvailableDesc a (b :: l)
          = if byAvailableDesc a b then a :: b :: l
            else b :: orderedInsertBy byAvailableDesc a l from rfl,
        if_neg h]
      refine List.Pairwise.cons ?_
        (ih hl' fun c hc hce => hid c (List.mem_cons_of_mem b hc) hce)
      intro x hx
      rcases (mem_orderedInsertBy byAvailableDesc a x l).mp hx with rfl | hxl
      · have : x.available_at < b.available_at := by
          simpa [byAvailableDesc, not_le] using h
        exact Or.inl this
      · exact hbl x hxl

theorem pairwise_insertionSortBy (l : List Post)
    (hl : l.Pairwise fun a b => a.id < b.id) :
    (insertionSortBy byAvailableDesc l).Pairwise postLex := by
  induction l with
  | nil => simp [insertionSortBy]
  | cons a l ih =>
    rcases List.pairwise_cons.mp hl with ⟨hal, hl'⟩
    rw [show insertionSortBy byAvailableDesc (a :: l)
        = orderedInsertBy byAvailableDesc a (insertionSortBy byAvailableDesc l) from rfl]
    apply pairwise_orderedInsertBy
    · exact ih hl'
    · intro b hb _
      exact hal b ((mem_insertionSortBy byAvailableDesc l b).mp hb)

/-- C7 (amended): `listPosts` and `getPostById` attach the owner's minimal
identity and `total_likes` counted over active like rows; `getUserPosts`
attaches the like count but no owner identity (that query never
eager-loads `User`); the listing total counts post rows only — it is
insensitive to the like table; and, over a post table in insertion order
(ids ascending), the default listing is ordered by `available_at`
descending with ties broken by id ascending. -/
theorem read_assembly (db : DB) (now : Int) (f : ListFilters) (pg : PageOpts)
    (userId idp : Nat) (incSched : Bool) (search : Option String)
    (href : ∀ p ∈ db.posts, ∃ w ∈ db.users, w.id = p.user_id)
    (hOrdIns : db.posts.Pairwise fun a b => a.id < b.id) :
    (∀ v ∈ (PostService.listPosts db now f pg).posts,
      (∃ w ∈ db.users, w.id = v.post.user_id ∧ v.user = some { id := w.id, name := w.name }) ∧
      v.total_likes = PostLike.countActive db v.post.id) ∧
    (∀ v, PostService.getPostById db now idp = .ok v →
      (∃ w ∈ db.users, w.id = v.post.user_id ∧ v.user = some { id := w.id, name := w.name }) ∧
      v.total_likes = PostLike.countActive db v.post.id) ∧
    (∀ v ∈ (PostService.getUserPosts db now userId incSched search pg).posts,
      v.user = none ∧ v.total_likes = PostLike.countActive db v.post.id) ∧
    (∀ ls : List PostLike,
      (PostService.listPosts { db with post_likes := ls } now f pg).total
        = (PostService.listPosts db now f pg).total) ∧
    ((PostService.listPosts db now f pg).posts.map fun v => v.post).Pairwise postLex := by
  have hattach : ∀ p ∈ db.posts,
      (∃ w ∈ db.users, w.id = (toListedPost db p).post.user_id ∧
        (toListedPost db p).user = some { id := w.id, name := w.name }) ∧
      (toListedPost db p).total_likes = PostLike.countActive db (toListedPost db p).post.id := by
    intro p hp
    refine ⟨?_, rfl⟩
    obtain ⟨w, hw, hwid⟩ := href p hp
    cases hfu : User.findByPk db p.user_id with
    | none =>
      exfalso
      have := List.find?_eq_none.mp hfu w hw
      simp [hwid] at this
    | some w' =>
      have hw'mem : w' ∈ db.users := List.mem_of_find?_eq_some hfu
      have hw'id : w'.id = p.user_id := by
        have := List.find?_some hfu
        simpa using this
      exact ⟨w', hw'mem, hw'id, by simp [toListedPost, hfu]⟩
  have hmemrows : ∀ p ∈ ((insertionSortBy byAvailableDesc
      (db.posts.filter (listPostsWhere f now))).drop pg.offset).take pg.limit,
      p ∈ db.posts := by
    intro p hp
    have h1 := List.mem_of_mem_take hp
    have h2 := List.mem_of_mem_drop h1
    have h3 := (mem_insertionSortBy byAvailableDesc _ p).mp h2
    exact (List.mem_filter.mp h3).1
  refine ⟨?_, ?_, ?_, ?_, ?_⟩
  · intro v hv
    obtain ⟨p, hp, hpv⟩ := List.mem_map.mp hv
    subst hpv
    exact hattach p (hmemrows p hp)
  · intro v hv
    unfold PostService.getPostById at hv
    cases hfp : Post.findByPk db now idp with
    | none => rw [hfp] at hv; exact absurd hv (by simp)
    | some p =>
      rw [hfp] at hv
      have hpmem : p ∈ db.posts := List.mem_of_find?_eq_some hfp
      have hveq : toListedPost db p = v := by
        injection hv
      rw [← hveq]
      exact hattach p hpmem
  · intro v hv
    obtain ⟨p, hp, hpv⟩ := List.mem_map.mp hv
    subst hpv
    exact ⟨rfl, rfl⟩
  · intro ls
    rfl
  · have hrows : ((PostService.listPosts db now f pg).posts.map fun v => v.post)
        = ((insertionSortBy byAvailableDesc
            (db.posts.filter (listPostsWhere f now))).drop pg.offset).take pg.limit := by
      show ((((insertionSortBy byAvailableDesc
          (db.posts.filter (listPostsWhere f now))).drop pg.offset).take pg.limit).map
            (toListedPost db)).map (fun v => v.post) = _
      rw [List.map_map]
      exact List.map_id _
    rw [hrows]
    have hsorted : (insertionSortBy byAvailableDesc
        (db.posts.filter (listPostsWhere f now))).Pairwise postLex :=
      pairwise_insertionSortBy _ (List.Pairwise.sublist (List.filter_sublist _) hOrdIns)
    exact List.Pairwise.sublist
      (List.Sublist.trans (List.take_sublist _ _) (List.drop_sublist _ _)) hsorted

/-- C7 witness: on the fixture store (two users, two posts in id order),
every listed item carries its owner's identity and active-like count, and
the default listing is lexicographically ordered. -/
theorem read_assembly_witness :
    (∀ v ∈ (PostService.listPosts dbFix 10 {} {}).posts,
      (∃ w ∈ dbFix.users, w.id = v.post.user_id ∧ v.user = some { id := w.id, name := w.name }) ∧
      v.total_likes = PostLike.countActive dbFix v.post.id) ∧
    ((PostService.listPosts dbFix 10 {} {}).posts.map fun v => v.post).Pairwise postLex :=
  ⟨(read_assembly dbFix 10 {} {} 1 1 false none (by decide) (by decide)).1,
   (read_assembly dbFix 10 {} {} 1 1 false none (by decide) (by decide)).2.2.2.2⟩

end Medium
